import Mathlib

/-!
Verification of the timestamp-alignment and event-segmentation core of the
MC10py repository (`src/MC10py/LoadMC10.py`): the functions
`_align_timestamps` and `_segment_data`, the annotation de-duplication pass
of `load_mc10`, and their validation.  Numeric values (timestamps, channel
readings, rates) are embedded as rationals; numpy arrays as lists; Python
dicts as insertion-ordered association lists; raised exceptions as `Except`
values.  The cubic interpolant produced by `scipy.interpolate.interp1d` is
kept abstract as a function parameter `itp` (no claim concerns the
interpolated values); its documented size check (at least 4 points for a
cubic fit) and bounds check (evaluation outside the native time range
raises `ValueError`) are modelled explicitly.
-/

namespace MC10

/-- A sensor table: rows are samples, column 0 is the timestamp. -/
abbrev Table := List (List ℚ)

/-- The per-location mapping from sensor kind (file stem, e.g. "accel") to its table. -/
abbrev KindMap := List (String × Table)

/-- A subject's data: sensor location to kind map. -/
abbrev SubjData := List (String × KindMap)

/-- The error kinds relevant to the embedded code paths.  `valueError` and
`indexError` are the Python/numpy/scipy exceptions the source can actually
raise; `inputError` is the `InputError` class defined in `LoadMC10.py`;
`alignmentError` and `insufficientDataError` are the dedicated error kinds the
specification names (no such classes exist in the source - they are included
so that statements about them can be expressed). -/
inductive PyErr where
  | valueError
  | indexError
  | inputError
  | alignmentError
  | insufficientDataError
deriving DecidableEq

instance instDecEqExcept {ε α : Type} [DecidableEq ε] [DecidableEq α] :
    DecidableEq (Except ε α) := fun a b =>
  match a, b with
  | .error e, .error f =>
    if h : e = f then .isTrue (h ▸ rfl) else .isFalse (fun hc => h (Except.error.inj hc))
  | .ok x, .ok y =>
    if h : x = y then .isTrue (h ▸ rfl) else .isFalse (fun hc => h (Except.ok.inj hc))
  | .error _, .ok _ => .isFalse (fun hc => Except.noConfusion hc)
  | .ok _, .error _ => .isFalse (fun hc => Except.noConfusion hc)

instance instDecEqLocEntry : DecidableEq (String × KindMap) := instDecidableEqProd

instance instDecEqSubjData : DecidableEq SubjData := instDecidableEqList

instance instDecEqSegEntry : DecidableEq (String × SubjData) := instDecidableEqProd

instance instDecEqSegOut : DecidableEq (List (String × SubjData)) := instDecidableEqList

/-- Column 0 of a table (`data[:, 0]`). -/
def col0 (t : Table) : List ℚ := t.map (fun r => r.headD 0)

/-- `numpy.diff`: consecutive differences. -/
def diffs : List ℚ → List ℚ
  | a :: b :: rest => (b - a) :: diffs (b :: rest)
  | _ => []

/-- `numpy.mean`.  (`mean []` is NaN in numpy; here it is `0/0 = 0`; every
use below is guarded so this case never carries meaning.) -/
def mean (l : List ℚ) : ℚ := l.sum / (l.length : ℚ)

/-- Mean of consecutive timestamp differences, `mean(diff(ts))`. -/
def meanDiff (ts : List ℚ) : ℚ := mean (diffs ts)

/-- Strictly ascending timestamps, as a decidable boolean. -/
def ascBool : List ℚ → Bool
  | a :: b :: rest => decide (a < b) && ascBool (b :: rest)
  | _ => true

/-- `i` is an index of a minimal element of `l`. -/
def isMinAt (l : List ℚ) (i : Nat) : Bool := l.all (fun x => decide (l.getD i 0 ≤ x))

/-- `numpy.argmin`: the first index attaining the minimum (0 on an empty list). -/
def listArgmin (l : List ℚ) : Nat := ((List.range l.length).find? (isMinAt l)).getD 0

/-- The valid sampling intervals of the MC10 system:
`1000/array([31.25, 62.5, 125, 250])`, i.e. `[32, 16, 8, 4]` milliseconds. -/
def samplingRates : List ℚ := [1000 / 31.25, 1000 / 62.5, 1000 / 125, 1000 / 250]

/-- `argmin(abs(m - sampling_rates))`. -/
def snapIdx (m : ℚ) : Nat := listArgmin (samplingRates.map (fun r => |m - r|))

/-- `sampling_rates[argmin(abs(m - sampling_rates))]`. -/
def snapDt (m : ℚ) : ℚ := samplingRates.getD (snapIdx m) 0

/-- The snapped sampling interval of a location, from the timestamps of its
accel table.  For fewer than 2 samples `numpy` produces `mean(diff) = NaN`,
`abs(NaN - rates)` is all-NaN and `argmin` of an all-NaN array is 0, selecting
`sampling_rates[0]`; that case is written out explicitly since ℚ has no NaN. -/
def locDt (ts : List ℚ) : ℚ :=
  if ts.length < 2 then samplingRates.getD 0 0 else snapDt (meanDiff ts)

/-- Number of elements of `numpy.arange(start, stop, dt)` for `dt > 0`. -/
def arangeLen (start stop dt : ℚ) : Nat :=
  if 0 < dt then (⌈(stop - start) / dt⌉).toNat else 0

/-- `numpy.arange(start, stop, dt)`: `start, start + dt, ...` up to but
excluding `stop` (half-open). -/
def arange (start stop dt : ℚ) : List ℚ :=
  (List.range (arangeLen start stop dt)).map (fun (i : Nat) => start + (i : ℚ) * dt)

/-- Python 3 `round` (banker's rounding, half to even) composed with `int`. -/
def pyRound (q : ℚ) : ℤ :=
  if q - ⌊q⌋ < 1 / 2 then ⌊q⌋
  else if (1 : ℚ) / 2 < q - ⌊q⌋ then ⌊q⌋ + 1
  else if ⌊q⌋ % 2 = 0 then ⌊q⌋ else ⌊q⌋ + 1

/-- Normalization of one bound of a Python slice `a[i:j]` over a sequence of
length `n`: a negative index wraps to `n + i` (floored at 0), a nonnegative
one is capped at `n`. -/
def pySliceIdx (n : Nat) (i : ℤ) : Nat :=
  if i < 0 then (max ((n : ℤ) + i) 0).toNat else min i.toNat n

/-- Python slice `t[i:j]` (row-wise, step 1). -/
def pySlice (t : Table) (i j : ℤ) : Table :=
  (t.drop (pySliceIdx t.length i)).take (pySliceIdx t.length j - pySliceIdx t.length i)

/-- `argmin(abs(times - x))`: index of the row whose timestamp is nearest to
`x` (first index on ties). -/
def nearestIdx (t : Table) (x : ℚ) : Nat := listArgmin ((col0 t).map (fun u => |u - x|))

/-- `npt = int(round(pre_time / dt))` with `dt = mean(diff(times)) / 1000`
(milliseconds to seconds, the unit of `pre_time`).  (For tables with fewer
than 2 rows or non-ascending timestamps the Python expression produces
NaN/inf and `int()` raises; theorems below hypothesize at least 2 ascending
timestamps.) -/
def padSamples (t : Table) (pre : ℚ) : ℤ := pyRound (pre / (meanDiff (col0 t) / 1000))

/-- The per-annotation slicing of `_segment_data` for one sensor table:
for each `(start, stop, event)` triple, emit under key `event` the rows
`data[start_index - npt : stop_index]`. -/
def segTable (t : Table) (startL stopL : List ℚ) (evs : List String) (pre : ℚ) :
    List (String × Table) :=
  ((startL.zip stopL).zip evs).map
    (fun p =>
      (p.2, pySlice t ((nearestIdx t p.1.1 : ℤ) - padSamples t pre) (nearestIdx t p.1.2 : ℤ)))

/-- Number of occurrences of `s` in `l`. -/
def countOcc (l : List String) (s : String) : Nat := (l.filter (fun x => x == s)).length

/-- Assignment into the `dtype='U35'` numpy `events` array: a fixed-width
unicode array keeps only the first 35 characters of an assigned string. -/
def truncU35 (s : String) : String := ⟨s.data.take 35⟩

/-- The de-duplication pass of `load_mc10` at position `k`: `cnts[inds[k]]`
is the total number of occurrences of `events[k]`, and the per-name counter
`ecnts[inds[k]]`, having been incremented once for each earlier occurrence of
the same name, equals 1 plus the number of occurrences before position `k`.
The in-place append `events[k] += f' {ecnts[inds[k]]}'` stores the
concatenation back into the `dtype='U35'` array, truncating it to 35
characters. -/
def dedupName (orig : List String) (k : Nat) : String :=
  if 1 < countOcc orig (orig.getD k "") then
    truncU35 (orig.getD k "" ++ " " ++ toString (1 + countOcc (orig.take k) (orig.getD k "")))
  else orig.getD k ""

/-- The full de-duplication pass over the annotation event names. -/
def dedup (orig : List String) : List String := (List.range orig.length).map (dedupName orig)

/-- A numpy array as handed to `_segment_data`: a shape plus flattened data.
Entries of `start`/`stop` are `Option ℚ`: `some q` for a string coercible to
the float `q`, `none` for a non-coercible one. -/
structure NdArr (α : Type) where
  shape : List Nat
  data : List α
deriving DecidableEq

/-- Sequence a list of options (all-or-nothing). -/
def seqOpt : List (Option ℚ) → Option (List ℚ)
  | [] => some []
  | none :: _ => none
  | some q :: l => (seqOpt l).map (fun l' => q :: l')

/-- `arr.astype(float)`: `ValueError` if some entry is not coercible. -/
def astype (a : NdArr (Option ℚ)) : Except PyErr (List ℚ) :=
  match seqOpt a.data with
  | some l => .ok l
  | none => .error .valueError

/-- The segmented output shape: location to kind to event name to table. -/
abbrev SegOut := List (String × List (String × List (String × Table)))

/-- `_segment_data`: input validation in source order (the `astype` coercion,
which can raise `ValueError`, runs before the dimensionality and shape checks,
which raise `InputError`), then the per-location, per-kind slicing loop.  The
`isinstance` checks on lines 190-193 always pass here because the embedding
types the inputs as arrays. -/
def segmentData (dat : SubjData) (start stop : NdArr (Option ℚ)) (events : NdArr String)
    (pre : ℚ) : Except PyErr SegOut :=
  match astype start with
  | .error e => .error e
  | .ok startF =>
    match astype stop with
    | .error e => .error e
    | .ok stopF =>
      if start.shape.length ≠ 1 then .error .inputError
      else if stop.shape.length ≠ 1 then .error .inputError
      else if start.shape ≠ stop.shape then .error .inputError
      else if start.shape ≠ events.shape then .error .inputError
      else .ok (dat.map (fun p =>
        (p.1, p.2.map (fun q => (q.1, segTable q.2 startF stopF events.data pre)))))

/-- A Python `for` loop with exception propagation: apply `f` to each element
and collect the results, stopping at the first raised error. -/
def eachOk {α β : Type} (f : α → Except PyErr β) : List α → Except PyErr (List β)
  | [] => .ok []
  | a :: l =>
    match f a with
    | .error e => .error e
    | .ok b =>
      match eachOk f l with
      | .error e => .error e
      | .ok bs => .ok (b :: bs)

/-- The `(tb[i], tf[i])` entry of `_align_timestamps` for one location: the
first and last timestamp of its accel table when present (`IndexError` when
that table or its boundary rows are empty), `(0, 0)` - the zero
initialization of `tb`/`tf` - when absent. -/
def tbtf (kinds : KindMap) : Except PyErr (ℚ × ℚ) :=
  match List.lookup "accel" kinds with
  | none => .ok (0, 0)
  | some t =>
    match t.head?, t.getLast? with
    | some r0, some rl =>
      match r0.head?, rl.head? with
      | some b, some f => .ok (b, f)
      | _, _ => .error .indexError
    | _, _ => .error .indexError

/-- All `(loc, tb, tf)` entries, in location order. -/
def beginsEnds (subj : SubjData) : Except PyErr (List (String × ℚ × ℚ)) :=
  eachOk (fun p => match tbtf p.2 with
    | .error e => .error e
    | .ok q => .ok (p.1, q)) subj

/-- `argwhere(tb)`: keep only the entries with a nonzero recorded first
timestamp. -/
def includedOf (ents : List (String × ℚ × ℚ)) : List (String × ℚ × ℚ) :=
  ents.filter (fun e => e.2.1 != 0)

/-- Whether `_align_timestamps` treats a location as accel-bearing: its
`tb` entry is nonzero.  A location whose accel table starts at timestamp 0 is
NOT detected. -/
def hasAccelRef (kinds : KindMap) : Bool :=
  match tbtf kinds with
  | .ok q => q.1 != 0
  | .error _ => false

/-- `start = max(tb); stop = min(tf)` - `max`/`min` of an empty sequence
raise `ValueError`. -/
def window (incl : List (String × ℚ × ℚ)) : Except PyErr (ℚ × ℚ) :=
  match (incl.map (fun p => p.2.1)).max?, (incl.map (fun p => p.2.2)).min? with
  | some s, some e => .ok (s, e)
  | _, _ => .error .valueError

/-- The window of `_align_timestamps` run on a subject. -/
def windowOf (subj : SubjData) : Except PyErr (ℚ × ℚ) :=
  match beginsEnds subj with
  | .error e => .error e
  | .ok ents => window (includedOf ents)

/-- The accel table of a location. -/
def locAccel (subj : SubjData) (loc : String) : Table :=
  (List.lookup "accel" ((List.lookup loc subj).getD [])).getD []

/-- The common time vector of one location:
`arange(start, stop, sampling_rates[argmin(...)])`. -/
def locTime (subj : SubjData) (start stop : ℚ) (loc : String) : List ℚ :=
  arange start stop (locDt (col0 (locAccel subj loc)))

/-- All evaluation points lie inside the native time range (the
`bounds_error` check of `interp1d`). -/
def inBounds (x : List ℚ) (time : List ℚ) : Bool :=
  time.all (fun tm => decide (x.min?.getD 0 ≤ tm) && decide (tm ≤ x.max?.getD 0))

/-- Resampling of one sensor table onto `time`: `IndexError` on an empty
table (`data[0, :]`); for each non-time column an `interp1d(..., kind='cubic')`
is built (`ValueError` with fewer than 4 points) and evaluated at `time`
(`ValueError` out of bounds); column 0 is replaced by `time`.  A table with
only the time column builds no interpolant, hence performs no check. -/
def interpTable (itp : List ℚ → List ℚ → ℚ → ℚ) (time : List ℚ) (t : Table) :
    Except PyErr Table :=
  match t.head? with
  | none => .error .indexError
  | some r0 =>
    if 1 < r0.length ∧ t.length < 4 then .error .valueError
    else if 1 < r0.length ∧ ¬inBounds (col0 t) time then .error .valueError
    else .ok (time.map (fun tm =>
      tm :: (List.range (r0.length - 1)).map
        (fun j => itp (col0 t) (t.map (fun r => r.getD (j + 1) 0)) tm)))

/-- Resampling of all kinds of one included location. -/
def alignLoc (itp : List ℚ → List ℚ → ℚ → ℚ) (subj : SubjData) (start stop : ℚ)
    (loc : String) : Except PyErr (String × KindMap) :=
  match eachOk (fun p => match interpTable itp (locTime subj start stop loc) p.2 with
    | .error e => .error e
    | .ok t2 => .ok (p.1, t2)) ((List.lookup loc subj).getD []) with
  | .error e => .error e
  | .ok ks => .ok (loc, ks)

/-- `_align_timestamps`: record the accel windows, intersect them, and
resample every kind of every included location onto its common time vector. -/
def align (itp : List ℚ → List ℚ → ℚ → ℚ) (subj : SubjData) : Except PyErr SubjData :=
  match beginsEnds subj with
  | .error e => .error e
  | .ok ents =>
    match window (includedOf ents) with
    | .error e => .error e
    | .ok (start, stop) =>
      eachOk (alignLoc itp subj start stop) ((includedOf ents).map Prod.fst)

/-- Well-formed kind maps: every table is nonempty with nonempty rows. -/
def WfKinds (kinds : KindMap) : Prop :=
  ∀ q ∈ kinds, q.2 ≠ [] ∧ ∀ r ∈ q.2, r ≠ []

/-! ## General-purpose lemmas: `max?`/`min?`, `find?` over `range`, argmin -/

/-- `max?` of a rational list returns a member that dominates the list. -/
theorem ratMax?_spec {l : List ℚ} {a : ℚ} (h : l.max? = some a) :
    a ∈ l ∧ ∀ b ∈ l, b ≤ a := by
  have : Std.Antisymm ((· : ℚ) ≤ ·) := ⟨fun h1 h2 => le_antisymm h1 h2⟩
  rw [List.max?_eq_some_iff] at h
  · exact h
  · exact le_refl
  · exact fun a b => max_choice a b
  · exact fun a b c => max_le_iff

/-- `min?` of a rational list returns a member below the list. -/
theorem ratMin?_spec {l : List ℚ} {a : ℚ} (h : l.min? = some a) :
    a ∈ l ∧ ∀ b ∈ l, a ≤ b := by
  have : Std.Antisymm ((· : ℚ) ≤ ·) := ⟨fun h1 h2 => le_antisymm h1 h2⟩
  rw [List.min?_eq_some_iff] at h
  · exact h
  · exact le_refl
  · exact fun a b => min_choice a b
  · exact fun a b c => le_min_iff

theorem ratMax?_isSome {l : List ℚ} (h : l ≠ []) : ∃ a, l.max? = some a := by
  cases hm : l.max? with
  | none => exact absurd (List.max?_eq_none_iff.mp hm) h
  | some a => exact ⟨a, rfl⟩

theorem ratMin?_isSome {l : List ℚ} (h : l ≠ []) : ∃ a, l.min? = some a := by
  cases hm : l.min? with
  | none => exact absurd (List.min?_eq_none_iff.mp hm) h
  | some a => exact ⟨a, rfl⟩

/-- If `find?` over `range n` returns `i`, no smaller index satisfies `p`. -/
theorem find?_range_first {p : Nat → Bool} {n i : Nat}
    (h : (List.range n).find? p = some i) : ∀ j < i, p j = false := by
  rw [List.find?_eq_some] at h
  obtain ⟨hpi, as, bs, hsplit, hfail⟩ := h
  have hn : n = as.length + bs.length + 1 := by
    have := congrArg List.length hsplit
    simpa using this
  have h2 : (List.range n)[as.length]? = some as.length :=
    List.getElem?_range (by omega)
  rw [hsplit, List.getElem?_append_right (le_refl as.length)] at h2
  simp at h2
  intro j hj
  have hj' : j < as.length := by omega
  have h3 : (List.range n)[j]? = some j := List.getElem?_range (by omega)
  rw [hsplit, List.getElem?_append_left hj'] at h3
  have hjas : j ∈ as := List.getElem?_mem h3
  simpa using hfail j hjas

/-- The argmin of a nonempty list: in bounds, minimizing, and first such. -/
theorem listArgmin_spec {l : List ℚ} (h : l ≠ []) :
    listArgmin l < l.length ∧ isMinAt l (listArgmin l) = true ∧
      ∀ j < listArgmin l, isMinAt l j = false := by
  obtain ⟨m, hm⟩ := ratMin?_isSome h
  obtain ⟨hmem, hle⟩ := ratMin?_spec hm
  obtain ⟨k, hk, hkm⟩ := List.mem_iff_getElem.mp hmem
  have hkmin : isMinAt l k = true := by
    rw [isMinAt, List.all_eq_true]
    intro x hx
    rw [List.getD_eq_getElem l 0 hk, hkm]
    exact decide_eq_true (hle x hx)
  have hsome : ∃ i, (List.range l.length).find? (isMinAt l) = some i := by
    have hs : ((List.range l.length).find? (isMinAt l)).isSome := by
      rw [List.find?_isSome]
      exact ⟨k, List.mem_range.mpr hk, hkmin⟩
    cases hf : (List.range l.length).find? (isMinAt l) with
    | none => rw [hf] at hs; simp at hs
    | some i => exact ⟨i, rfl⟩
  obtain ⟨i, hi⟩ := hsome
  have hargmin : listArgmin l = i := by rw [listArgmin, hi]; rfl
  refine ⟨?_, ?_, ?_⟩
  · rw [hargmin]
    exact List.mem_range.mp (List.mem_of_find?_eq_some hi)
  · rw [hargmin]
    exact List.find?_some hi
  · rw [hargmin]
    exact find?_range_first hi

/-- The argmin value is a lower bound of the list. -/
theorem getD_listArgmin_le {l : List ℚ} (h : l ≠ []) {j : Nat} (hj : j < l.length) :
    l.getD (listArgmin l) 0 ≤ l.getD j 0 := by
  have hmin := (listArgmin_spec h).2.1
  rw [isMinAt, List.all_eq_true] at hmin
  have hd := hmin (l.getD j 0)
    (by rw [List.getD_eq_getElem l 0 hj]; exact List.getElem_mem hj)
  exact of_decide_eq_true hd

/-- Indices before the argmin hold strictly larger values (first-min tie-break). -/
theorem getD_lt_of_lt_listArgmin {l : List ℚ} (h : l ≠ []) {j : Nat}
    (hj : j < listArgmin l) : l.getD (listArgmin l) 0 < l.getD j 0 := by
  obtain ⟨hlen, hmin, hfirst⟩ := listArgmin_spec h
  have hjlen : j < l.length := lt_trans hj hlen
  have hle := getD_listArgmin_le h hjlen
  rcases lt_or_eq_of_le hle with hlt | heq
  · exact hlt
  · exfalso
    have hjmin : isMinAt l j = true := by
      rw [isMinAt, List.all_eq_true]
      intro x hx
      rw [← heq]
      rw [isMinAt, List.all_eq_true] at hmin
      exact hmin x hx
    rw [hfirst j hj] at hjmin
    exact Bool.false_ne_true hjmin

/-! ## Lemmas on `arange` -/

/-- The length of `arange` for a nonempty window, as a rational and a lower bound. -/
theorem arangeLen_spec {start stop dt : ℚ} (hdt : 0 < dt) (hlt : start < stop) :
    1 ≤ arangeLen start stop dt ∧
      ((arangeLen start stop dt : ℤ) : ℚ) = ((⌈(stop - start) / dt⌉ : ℤ) : ℚ) := by
  have hx : 0 < (stop - start) / dt := div_pos (by linarith) hdt
  have h1 : 1 ≤ ⌈(stop - start) / dt⌉ := by
    have := Int.ceil_pos.mpr hx
    omega
  rw [arangeLen, if_pos hdt]
  constructor
  · omega
  · rw [Int.toNat_of_nonneg (by omega)]

/-- `arange` on a nonempty window: first element is `start`; the last element
is below `stop` by at most `dt`. -/
theorem arange_spec {start stop dt : ℚ} (hdt : 0 < dt) (hlt : start < stop) :
    (arange start stop dt).head? = some start ∧
      ∃ last, (arange start stop dt).getLast? = some last ∧
        last < stop ∧ stop - dt ≤ last := by
  obtain ⟨hn1, hcast⟩ := arangeLen_spec hdt hlt
  set x : ℚ := (stop - start) / dt with hxdef
  set n : Nat := arangeLen start stop dt with hndef
  have hxval : x * dt = stop - start := div_mul_cancel₀ _ (ne_of_gt hdt)
  have hnq : (n : ℚ) = ((⌈x⌉ : ℤ) : ℚ) := by exact_mod_cast hcast
  obtain ⟨m, hm⟩ : ∃ m, n = m + 1 := ⟨n - 1, by omega⟩
  constructor
  · rw [arange, List.head?_map, List.head?_eq_getElem?, List.getElem?_range (by omega)]
    simp
  · refine ⟨start + (m : ℚ) * dt, ?_, ?_, ?_⟩
    · rw [arange, ← hndef, hm, List.range_succ, List.map_append]
      simp
    · have hmq : (m : ℚ) = (n : ℚ) - 1 := by
        rw [hm]
        push_cast
        ring
      have hlt2 : (m : ℚ) < x := by
        rw [hmq, hnq]
        have := Int.ceil_lt_add_one x
        push_cast at this ⊢
        linarith
      have := mul_lt_mul_of_pos_right hlt2 hdt
      rw [hxval] at this
      linarith
    · have hmq : (m : ℚ) = (n : ℚ) - 1 := by
        rw [hm]
        push_cast
        ring
      have hge2 : x - 1 ≤ (m : ℚ) := by
        rw [hmq, hnq]
        have := Int.le_ceil x
        push_cast at this ⊢
        linarith
      have := mul_le_mul_of_nonneg_right hge2 (le_of_lt hdt)
      rw [sub_mul, one_mul, hxval] at this
      linarith


/-! ## Lemmas on the sampling-rate snap -/

theorem samplingRates_eq : samplingRates = [32, 16, 8, 4] := by
  norm_num [samplingRates]

theorem samplingRates_pos : ∀ r ∈ samplingRates, 0 < r := by
  rw [samplingRates_eq]
  intro r hr
  simp only [List.mem_cons, List.not_mem_nil, or_false] at hr
  rcases hr with rfl | rfl | rfl | rfl <;> norm_num

theorem snapDists_ne_nil (m : ℚ) : samplingRates.map (fun r => |m - r|) ≠ [] := by
  rw [samplingRates_eq]
  simp

theorem snapIdx_eq_argmin (m : ℚ) :
    listArgmin (samplingRates.map (fun r => |m - r|)) = snapIdx m := rfl

theorem snapIdx_lt (m : ℚ) : snapIdx m < samplingRates.length := by
  have h := (listArgmin_spec (snapDists_ne_nil m)).1
  rw [snapIdx_eq_argmin, List.length_map] at h
  exact h

/-- The snapped interval is a catalog entry. -/
theorem snapDt_mem (m : ℚ) : snapDt m ∈ samplingRates := by
  rw [snapDt, List.getD_eq_getElem samplingRates 0 (snapIdx_lt m)]
  exact List.getElem_mem _

theorem snapDt_pos (m : ℚ) : 0 < snapDt m := samplingRates_pos _ (snapDt_mem m)

/-- Distances list indexing. -/
theorem snapDists_getD (m : ℚ) {j : Nat} (hj : j < samplingRates.length) :
    (samplingRates.map (fun r => |m - r|)).getD j 0 = |m - samplingRates.getD j 0| := by
  rw [List.getD_eq_getElem _ 0 (by simpa using hj), List.getElem_map,
    List.getD_eq_getElem samplingRates 0 hj]

/-- The snapped interval minimizes the absolute distance to the catalog. -/
theorem snapDt_minimizes (m : ℚ) : ∀ c ∈ samplingRates, |m - snapDt m| ≤ |m - c| := by
  intro c hc
  obtain ⟨j, hj, hjc⟩ := List.mem_iff_getElem.mp hc
  have h := getD_listArgmin_le (snapDists_ne_nil m) (j := j) (by simpa using hj)
  rw [snapIdx_eq_argmin, snapDists_getD m (snapIdx_lt m), snapDists_getD m hj] at h
  rw [snapDt]
  rw [List.getD_eq_getElem samplingRates 0 hj, hjc] at h
  exact h

/-- Catalog entries before the chosen one are strictly farther (first-index tie-break). -/
theorem snapDt_first (m : ℚ) :
    ∀ j < snapIdx m, |m - snapDt m| < |m - samplingRates.getD j 0| := by
  intro j hj
  have hj' : j < listArgmin (samplingRates.map (fun r => |m - r|)) := by
    rw [snapIdx_eq_argmin]
    exact hj
  have h := getD_lt_of_lt_listArgmin (snapDists_ne_nil m) (j := j) hj'
  have hjlen : j < samplingRates.length := lt_trans hj (snapIdx_lt m)
  rw [snapIdx_eq_argmin, snapDists_getD m (snapIdx_lt m), snapDists_getD m hjlen] at h
  rw [snapDt]
  exact h

/-- A mean interval within 1 ms of 8 ms snaps to the 8 ms entry. -/
theorem snapDt_eight {m : ℚ} (h : |m - 8| ≤ 1) : snapDt m = 8 := by
  have hm1 : 7 ≤ m := by have := (abs_le.mp h).1; linarith
  have hm2 : m ≤ 9 := by have := (abs_le.mp h).2; linarith
  have h32 : |m - 32| = 32 - m := by rw [abs_of_nonpos (by linarith)]; ring
  have h16 : |m - 16| = 16 - m := by rw [abs_of_nonpos (by linarith)]; ring
  have h4 : |m - 4| = m - 4 := abs_of_nonneg (by linarith)
  have hd : samplingRates.map (fun r => |m - r|) = [|m - 32|, |m - 16|, |m - 8|, |m - 4|] := by
    rw [samplingRates_eq]
    simp
  have hmin2 : isMinAt (samplingRates.map (fun r => |m - r|)) 2 = true := by
    rw [isMinAt, List.all_eq_true, hd]
    intro x hx
    have hg : ([|m - 32|, |m - 16|, |m - 8|, |m - 4|].getD 2 0) = |m - 8| := rfl
    rw [hg, decide_eq_true_eq]
    simp only [List.mem_cons, List.not_mem_nil, or_false] at hx
    have habs := abs_le.mp h
    rcases hx with rfl | rfl | rfl | rfl
    · rw [h32]; linarith [habs.1, habs.2, abs_nonneg (m - 8)]
    · rw [h16]; linarith [habs.1, habs.2, abs_nonneg (m - 8)]
    · exact le_refl _
    · rw [h4]; linarith [habs.1, habs.2, abs_nonneg (m - 8)]
  have hmin0 : isMinAt (samplingRates.map (fun r => |m - r|)) 0 = false := by
    rw [isMinAt, List.all_eq_false, hd]
    refine ⟨|m - 8|, by simp, ?_⟩
    have hg : ([|m - 32|, |m - 16|, |m - 8|, |m - 4|].getD 0 0) = |m - 32| := rfl
    rw [hg, decide_eq_true_eq]
    push_neg
    rw [h32]
    linarith
  have hmin1 : isMinAt (samplingRates.map (fun r => |m - r|)) 1 = false := by
    rw [isMinAt, List.all_eq_false, hd]
    refine ⟨|m - 8|, by simp, ?_⟩
    have hg : ([|m - 32|, |m - 16|, |m - 8|, |m - 4|].getD 1 0) = |m - 16| := rfl
    rw [hg, decide_eq_true_eq]
    push_neg
    rw [h16]
    linarith
  have hlen : (samplingRates.map (fun r => |m - r|)).length = 4 := by rw [hd]; rfl
  have hidx : snapIdx m = 2 := by
    rw [snapIdx, listArgmin, hlen]
    rw [show List.range 4 = [0, 1, 2, 3] from rfl]
    rw [List.find?_cons_of_neg _ (by rw [hmin0]; exact Bool.false_ne_true),
      List.find?_cons_of_neg _ (by rw [hmin1]; exact Bool.false_ne_true),
      List.find?_cons_of_pos _ hmin2]
    rfl
  rw [snapDt, hidx, samplingRates_eq]
  rfl



/-! ## Lemmas on `diffs`, `meanDiff`, `locDt` -/

theorem diffs_length : ∀ (a : ℚ) (l : List ℚ), (diffs (a :: l)).length = l.length := by
  intro a l
  induction l generalizing a with
  | nil => rfl
  | cons b r ih => simp [diffs, ih b]

theorem diffs_sum : ∀ (l : List ℚ) (a : ℚ), (diffs (a :: l)).sum = l.getLastD a - a := by
  intro l
  induction l with
  | nil => intro a; simp [diffs]
  | cons b r ih =>
    intro a
    rw [diffs, List.sum_cons, ih b, List.getLastD_cons]
    ring

theorem getD_length_cons : ∀ (l : List ℚ) (a : ℚ), (a :: l).getD l.length 0 = l.getLastD a := by
  intro l
  induction l with
  | nil => intro a; rfl
  | cons b r ih =>
    intro a
    rw [List.getLastD_cons]
    exact ih b

theorem meanDiff_cons (a : ℚ) (l : List ℚ) :
    meanDiff (a :: l) = (l.getLastD a - a) / (l.length : ℚ) := by
  rw [meanDiff, mean, diffs_sum, diffs_length]

/-- Timestamps nominally 8 ms apart with jitter at most 1/2 ms have a mean
consecutive difference within 1 ms of 8 ms. -/
theorem meanDiff_near_eight {t : List ℚ} {b : ℚ} (h2 : 2 ≤ t.length)
    (hj : ∀ k, k < t.length → |t.getD k 0 - (b + 8 * (k : ℚ))| ≤ 1 / 2) :
    |meanDiff t - 8| ≤ 1 := by
  match t, h2 with
  | a :: l, h2' =>
  have hlen : 1 ≤ l.length := by
    simp only [List.length_cons] at h2'
    omega
  have hn : (1 : ℚ) ≤ (l.length : ℚ) := by exact_mod_cast hlen
  have hnpos : (0 : ℚ) < (l.length : ℚ) := by linarith
  have hfirst : |a - b| ≤ 1 / 2 := by
    have := hj 0 (by simp)
    simpa using this
  have hlast : |l.getLastD a - (b + 8 * (l.length : ℚ))| ≤ 1 / 2 := by
    have := hj l.length (by simp)
    rwa [getD_length_cons] at this
  rw [meanDiff_cons]
  have hrw : (l.getLastD a - a) / (l.length : ℚ) - 8
      = (l.getLastD a - a - 8 * (l.length : ℚ)) / (l.length : ℚ) := by
    field_simp
    ring
  rw [hrw, abs_div, abs_of_pos hnpos, div_le_one hnpos]
  have htri : |l.getLastD a - a - 8 * (l.length : ℚ)|
      ≤ |l.getLastD a - (b + 8 * (l.length : ℚ))| + |b - a| := by
    have : l.getLastD a - a - 8 * (l.length : ℚ)
        = (l.getLastD a - (b + 8 * (l.length : ℚ))) + (b - a) := by ring
    rw [this]
    exact abs_add _ _
  have hba : |b - a| = |a - b| := abs_sub_comm b a
  linarith

theorem locDt_mem (ts : List ℚ) : locDt ts ∈ samplingRates := by
  rw [locDt]
  split
  · rw [samplingRates_eq]
    simp
  · exact snapDt_mem _

theorem locDt_pos (ts : List ℚ) : 0 < locDt ts := samplingRates_pos _ (locDt_mem ts)

/-- Claim C4's jitter scenario, at the level of `locDt`. -/
theorem locDt_eight {t : List ℚ} {b : ℚ} (h2 : 2 ≤ t.length)
    (hj : ∀ k, k < t.length → |t.getD k 0 - (b + 8 * (k : ℚ))| ≤ 1 / 2) :
    locDt t = 8 := by
  rw [locDt, if_neg (by omega)]
  exact snapDt_eight (meanDiff_near_eight h2 hj)



/-! ## Lemmas on `eachOk`, `window`, `List.lookup` -/

theorem eachOk_ok_forall2 {α β : Type} {f : α → Except PyErr β} :
    ∀ {l : List α} {out : List β}, eachOk f l = .ok out →
      List.Forall₂ (fun a b => f a = .ok b) l out := by
  intro l
  induction l with
  | nil =>
    intro out h
    rw [eachOk] at h
    cases h
    exact List.Forall₂.nil
  | cons a r ih =>
    intro out h
    rw [eachOk] at h
    cases hfa : f a with
    | error e => rw [hfa] at h; exact absurd h (by simp)
    | ok b =>
      rw [hfa] at h
      cases hr : eachOk f r with
      | error e => rw [hr] at h; exact absurd h (by simp)
      | ok bs =>
        rw [hr] at h
        cases h
        exact List.Forall₂.cons hfa (ih hr)

theorem eachOk_error_mem {α β : Type} {f : α → Except PyErr β} :
    ∀ {l : List α} {e : PyErr}, eachOk f l = .error e → ∃ a ∈ l, f a = .error e := by
  intro l
  induction l with
  | nil =>
    intro e h
    rw [eachOk] at h
    exact absurd h (by simp)
  | cons a r ih =>
    intro e h
    rw [eachOk] at h
    cases hfa : f a with
    | error e' =>
      rw [hfa] at h
      cases h
      exact ⟨a, List.mem_cons_self a r, hfa⟩
    | ok b =>
      rw [hfa] at h
      cases hr : eachOk f r with
      | error e' =>
        rw [hr] at h
        cases h
        obtain ⟨x, hx, hfx⟩ := ih hr
        exact ⟨x, List.mem_cons_of_mem a hx, hfx⟩
      | ok bs => rw [hr] at h; exact absurd h (by simp)

theorem eachOk_ok_of_forall {α β : Type} {f : α → Except PyErr β} :
    ∀ {l : List α}, (∀ a ∈ l, ∃ b, f a = .ok b) → ∃ out, eachOk f l = .ok out := by
  intro l
  induction l with
  | nil => intro _; exact ⟨[], rfl⟩
  | cons a r ih =>
    intro h
    obtain ⟨b, hb⟩ := h a (List.mem_cons_self a r)
    obtain ⟨bs, hbs⟩ := ih (fun x hx => h x (List.mem_cons_of_mem a hx))
    exact ⟨b :: bs, by rw [eachOk, hb, hbs]⟩

theorem forall2_mem_left {α β : Type} {R : α → β → Prop} :
    ∀ {l : List α} {l' : List β}, List.Forall₂ R l l' → ∀ {a}, a ∈ l →
      ∃ b, b ∈ l' ∧ R a b := by
  intro l l' h
  induction h with
  | nil => intro a ha; exact absurd ha (List.not_mem_nil a)
  | cons hR _ ih =>
    intro x hx
    rcases List.mem_cons.mp hx with rfl | hx'
    · exact ⟨_, List.mem_cons_self _ _, hR⟩
    · obtain ⟨b, hb, hRb⟩ := ih hx'
      exact ⟨b, List.mem_cons_of_mem _ hb, hRb⟩

theorem window_nil : window [] = .error .valueError := rfl

theorem window_ok_of_ne_nil {incl : List (String × ℚ × ℚ)} (h : incl ≠ []) :
    ∃ s e, window incl = .ok (s, e) := by
  have hb : incl.map (fun p => p.2.1) ≠ [] := by
    intro hc
    exact h (List.map_eq_nil_iff.mp hc)
  have hf : incl.map (fun p => p.2.2) ≠ [] := by
    intro hc
    exact h (List.map_eq_nil_iff.mp hc)
  obtain ⟨s, hs⟩ := ratMax?_isSome hb
  obtain ⟨e, he⟩ := ratMin?_isSome hf
  exact ⟨s, e, by rw [window, hs, he]⟩

/-- The window endpoints: `start` is the max of the begins, `stop` the min of
the ends, over the included entries. -/
theorem window_spec {incl : List (String × ℚ × ℚ)} {s e : ℚ}
    (h : window incl = .ok (s, e)) :
    (∃ p ∈ incl, p.2.1 = s) ∧ (∀ p ∈ incl, p.2.1 ≤ s) ∧
      (∃ p ∈ incl, p.2.2 = e) ∧ (∀ p ∈ incl, e ≤ p.2.2) := by
  rw [window] at h
  cases hs : (incl.map (fun p => p.2.1)).max? with
  | none => rw [hs] at h; exact absurd h (by simp)
  | some s' =>
    cases he : (incl.map (fun p => p.2.2)).min? with
    | none => rw [hs, he] at h; exact absurd h (by simp)
    | some e' =>
      rw [hs, he] at h
      cases h
      obtain ⟨hsmem, hsle⟩ := ratMax?_spec hs
      obtain ⟨hemem, hele⟩ := ratMin?_spec he
      obtain ⟨p, hp, hps⟩ := List.mem_map.mp hsmem
      obtain ⟨q, hq, hqe⟩ := List.mem_map.mp hemem
      refine ⟨⟨p, hp, hps⟩, ?_, ⟨q, hq, hqe⟩, ?_⟩
      · intro r hr
        exact hsle _ (List.mem_map.mpr ⟨r, hr, rfl⟩)
      · intro r hr
        exact hele _ (List.mem_map.mpr ⟨r, hr, rfl⟩)

theorem window_error_of_nil {e : PyErr} :
    window [] = .error e → e = .valueError := by
  intro h
  rw [window_nil] at h
  cases h
  rfl

/-- `window` only raises `ValueError`. -/
theorem window_error_eq {incl : List (String × ℚ × ℚ)} {e : PyErr}
    (h : window incl = .error e) : e = .valueError := by
  rw [window] at h
  cases hs : (incl.map (fun p => p.2.1)).max? with
  | none =>
    cases he : (incl.map (fun p => p.2.2)).min? with
    | none => rw [hs, he] at h; cases h; rfl
    | some e' => rw [hs, he] at h; cases h; rfl
  | some s' =>
    cases he : (incl.map (fun p => p.2.2)).min? with
    | none => rw [hs, he] at h; cases h; rfl
    | some e' => rw [hs, he] at h; exact absurd h (by simp)

theorem lookup_mem {β : Type} {k : String} {v : β} :
    ∀ {m : List (String × β)}, List.lookup k m = some v → (k, v) ∈ m := by
  intro m
  induction m with
  | nil => intro h; exact absurd h (by simp [List.lookup])
  | cons p r ih =>
    intro h
    rw [List.lookup] at h
    cases hbeq : (k == p.1) with
    | true =>
      rw [hbeq] at h
      have hv : some p.2 = some v := h
      have hk : k = p.1 := eq_of_beq hbeq
      cases hv
      rw [List.mem_cons]
      left
      rw [hk]
    | false =>
      rw [hbeq] at h
      have h2 : List.lookup k r = some v := h
      exact List.mem_cons_of_mem p (ih h2)

theorem lookup_eq_of_mem_nodup {β : Type} {k : String} {v : β} :
    ∀ {m : List (String × β)}, (k, v) ∈ m → (m.map Prod.fst).Nodup →
      List.lookup k m = some v := by
  intro m
  induction m with
  | nil => intro h _; exact absurd h (List.not_mem_nil _)
  | cons p r ih =>
    intro h hnd
    rw [List.map_cons, List.nodup_cons] at hnd
    rcases List.mem_cons.mp h with rfl | h'
    · rw [List.lookup]
      have hself : (k == k) = true := by simp
      rw [hself]
    · rw [List.lookup]
      have hne : (k == p.1) = false := by
        rw [beq_eq_false_iff_ne]
        intro hk
        subst hk
        exact hnd.1 (List.mem_map.mpr ⟨(p.1, v), h', rfl⟩)
      rw [hne]
      exact ih h' hnd.2



/-! ## Structural lemmas on `_align_timestamps` -/

theorem tbtf_ok_of_wf {kinds : KindMap} (hwf : WfKinds kinds) :
    ∃ p, tbtf kinds = .ok p := by
  cases hl : List.lookup "accel" kinds with
  | none => exact ⟨(0, 0), by simp only [tbtf, hl]⟩
  | some t =>
    obtain ⟨hne, hrows⟩ := hwf _ (lookup_mem hl)
    match t, hne, hrows with
    | r0 :: rest, _, hrows =>
      obtain ⟨rl, h2, hmem⟩ :
          ∃ rl, (r0 :: rest).getLast? = some rl ∧ rl ∈ r0 :: rest :=
        ⟨(r0 :: rest).getLast (by simp), List.getLast?_eq_getLast _ (by simp),
          List.getLast_mem _⟩
      have hr0ne : r0 ≠ [] := hrows r0 (by simp)
      have hrlne : rl ≠ [] := hrows rl hmem
      obtain ⟨b, cr, rfl⟩ : ∃ b cr, r0 = b :: cr := by
        cases r0 with
        | nil => exact absurd rfl hr0ne
        | cons b cr => exact ⟨b, cr, rfl⟩
      obtain ⟨f, dr, rfl⟩ : ∃ f dr, rl = f :: dr := by
        cases rl with
        | nil => exact absurd rfl hrlne
        | cons f dr => exact ⟨f, dr, rfl⟩
      exact ⟨(b, f), by simp only [tbtf, hl, List.head?_cons, h2]⟩

/-- Computation rule for `tbtf` in the fully-defined case. -/
theorem tbtf_eq {kinds : KindMap} {t : Table} {r0 rl : List ℚ} {b f : ℚ}
    {cr dr : List ℚ}
    (hl : List.lookup "accel" kinds = some t)
    (h1 : t.head? = some r0) (h2 : t.getLast? = some rl)
    (h3 : r0 = b :: cr) (h4 : rl = f :: dr) :
    tbtf kinds = .ok (b, f) := by
  subst h3 h4
  simp only [tbtf, hl, h1, h2, List.head?_cons]

/-- `beginsEnds` succeeds exactly entrywise. -/
theorem beginsEnds_elim {subj : SubjData} {ents : List (String × ℚ × ℚ)}
    (h : beginsEnds subj = .ok ents) :
    List.Forall₂ (fun p ent => ent.1 = p.1 ∧ tbtf p.2 = .ok ent.2) subj ents := by
  have h2 := eachOk_ok_forall2 h
  refine List.Forall₂.imp ?_ h2
  intro p ent hR
  cases htb : tbtf p.2 with
  | error e =>
    rw [htb] at hR
    exact absurd hR (by simp)
  | ok q =>
    rw [htb] at hR
    have : Except.ok (ε := PyErr) (p.1, q) = .ok ent := hR
    cases this
    exact ⟨rfl, rfl⟩

theorem beginsEnds_ok_of_wf {subj : SubjData}
    (hwf : ∀ p ∈ subj, WfKinds p.2) :
    ∃ ents, beginsEnds subj = .ok ents := by
  apply eachOk_ok_of_forall
  intro p hp
  obtain ⟨q, hq⟩ := tbtf_ok_of_wf (hwf p hp)
  exact ⟨(p.1, q), by rw [hq]⟩

/-- The included keys are the locations whose accel reference is detected. -/
theorem included_keys {subj : SubjData} {ents : List (String × ℚ × ℚ)}
    (h : List.Forall₂ (fun p ent => ent.1 = p.1 ∧ tbtf p.2 = .ok ent.2) subj ents) :
    (includedOf ents).map Prod.fst
      = (subj.filter (fun p => hasAccelRef p.2)).map Prod.fst := by
  induction h with
  | nil => rfl
  | cons hR htail ih =>
    rename_i p ent subj' ents'
    rw [includedOf, List.filter_cons, List.filter_cons]
    have hcond : hasAccelRef p.2 = (ent.2.1 != 0) := by
      rw [hasAccelRef, hR.2]
    rw [hcond]
    cases hc : (ent.2.1 != 0) with
    | true =>
      rw [if_pos rfl, if_pos rfl, List.map_cons, List.map_cons, hR.1]
      rw [includedOf] at ih
      rw [ih]
    | false =>
      rw [if_neg (by simp), if_neg (by simp)]
      rw [includedOf] at ih
      exact ih



/-! ## Elimination lemmas for `interpTable`, `alignLoc`, `align` -/

/-- A successfully resampled table has the time vector as column 0. -/
theorem interpTable_ok_elim {itp : List ℚ → List ℚ → ℚ → ℚ} {time : List ℚ}
    {t t2 : Table} (h : interpTable itp time t = .ok t2) :
    col0 t2 = time := by
  rw [interpTable] at h
  split at h
  · exact absurd h (by simp)
  · split at h
    · exact absurd h (by simp)
    · split at h
      · exact absurd h (by simp)
      · cases h
        rename_i r0 heq h1 h2
        rw [col0, List.map_map]
        have hfun : ((fun r => r.headD 0) ∘ fun tm =>
            tm :: (List.range (r0.length - 1)).map
              (fun j => itp (col0 t) (t.map (fun r => r.getD (j + 1) 0)) tm))
            = fun tm => tm := by
          funext tm
          rfl
        rw [hfun]
        simp

/-- A failed resampling of a nonempty table is a `ValueError`. -/
theorem interpTable_error_elim {itp : List ℚ → List ℚ → ℚ → ℚ} {time : List ℚ}
    {t : Table} {e : PyErr} (hne : t ≠ []) (h : interpTable itp time t = .error e) :
    e = .valueError := by
  rw [interpTable] at h
  split at h
  · rename_i heq
    rw [List.head?_eq_none_iff] at heq
    exact absurd heq hne
  · split at h
    · cases h
      rfl
    · split at h
      · cases h
        rfl
      · exact absurd h (by simp)

/-- A nonempty table that is too short for a cubic fit (with at least one
channel column) makes `interp1d` raise `ValueError`. -/
theorem interpTable_short {itp : List ℚ → List ℚ → ℚ → ℚ} {time : List ℚ}
    {t : Table} {r0 : List ℚ} (h0 : t.head? = some r0) (hc : 1 < r0.length)
    (hlen : t.length < 4) :
    interpTable itp time t = .error .valueError := by
  rw [interpTable]
  split
  · rename_i heq
    rw [heq] at h0
    exact absurd h0 (by simp)
  · rename_i r0' heq
    rw [heq] at h0
    have hr : r0' = r0 := by
      have := Option.some.inj h0
      exact this
    subst hr
    rw [if_pos ⟨hc, hlen⟩]

/-- `alignLoc` success elimination. -/
theorem alignLoc_ok_elim {itp : List ℚ → List ℚ → ℚ → ℚ} {subj : SubjData}
    {start stop : ℚ} {loc : String} {q : String × KindMap}
    (h : alignLoc itp subj start stop loc = .ok q) :
    q.1 = loc ∧
      List.Forall₂ (fun (p kq : String × Table) => kq.1 = p.1 ∧
          interpTable itp (locTime subj start stop loc) p.2 = .ok kq.2)
        ((List.lookup loc subj).getD []) q.2 := by
  rw [alignLoc] at h
  split at h
  · exact absurd h (by simp)
  · rename_i ks hek
    cases h
    refine ⟨rfl, ?_⟩
    have h2 := eachOk_ok_forall2 hek
    refine List.Forall₂.imp ?_ h2
    intro p kq hR
    cases hit : interpTable itp (locTime subj start stop loc) p.2 with
    | error e =>
      rw [hit] at hR
      exact absurd hR (by simp)
    | ok t2 =>
      rw [hit] at hR
      have h3 : Except.ok (ε := PyErr) (p.1, t2) = .ok kq := hR
      cases h3
      exact ⟨rfl, rfl⟩

/-- `alignLoc` error elimination. -/
theorem alignLoc_error_elim {itp : List ℚ → List ℚ → ℚ → ℚ} {subj : SubjData}
    {start stop : ℚ} {loc : String} {e : PyErr}
    (h : alignLoc itp subj start stop loc = .error e) :
    ∃ p ∈ (List.lookup loc subj).getD [],
      interpTable itp (locTime subj start stop loc) p.2 = .error e := by
  rw [alignLoc] at h
  split at h
  · rename_i e2 hek
    have he2 : e2 = e := by
      have h3 : Except.error (α := String × KindMap) e2
          = Except.error (α := String × KindMap) e := h
      exact Except.error.inj h3
    subst he2
    obtain ⟨p, hp, hfp⟩ := eachOk_error_mem hek
    refine ⟨p, hp, ?_⟩
    cases hit : interpTable itp (locTime subj start stop loc) p.2 with
    | error e3 =>
      rw [hit] at hfp
      have h4 : Except.error (α := String × Table) e3
          = Except.error (α := String × Table) e2 := hfp
      cases h4
      rfl
    | ok t2 =>
      rw [hit] at hfp
      exact absurd hfp (by simp)
  · exact absurd h (by simp)

/-- `align` success decomposition. -/
theorem align_ok_elim {itp : List ℚ → List ℚ → ℚ → ℚ} {subj out : SubjData}
    (h : align itp subj = .ok out) :
    ∃ ents start stop, beginsEnds subj = .ok ents ∧
      window (includedOf ents) = .ok (start, stop) ∧
      List.Forall₂ (fun loc q => alignLoc itp subj start stop loc = .ok q)
        ((includedOf ents).map Prod.fst) out := by
  rw [align] at h
  split at h
  · exact absurd h (by simp)
  · rename_i ents hbe
    split at h
    · exact absurd h (by simp)
    · rename_i se start stop hw
      exact ⟨ents, start, stop, hbe, hw, eachOk_ok_forall2 h⟩

/-- `align` error elimination: the error is from `beginsEnds`, from
`window`, or from resampling one included location. -/
theorem align_error_elim {itp : List ℚ → List ℚ → ℚ → ℚ} {subj : SubjData}
    {e : PyErr} (h : align itp subj = .error e) :
    beginsEnds subj = .error e ∨
      (∃ ents, beginsEnds subj = .ok ents ∧ window (includedOf ents) = .error e) ∨
      (∃ ents start stop, beginsEnds subj = .ok ents ∧
        window (includedOf ents) = .ok (start, stop) ∧
        ∃ loc ∈ (includedOf ents).map Prod.fst,
          alignLoc itp subj start stop loc = .error e) := by
  rw [align] at h
  split at h
  · rename_i e' hbe
    cases h
    exact Or.inl hbe
  · rename_i ents hbe
    split at h
    · rename_i e' hw
      cases h
      exact Or.inr (Or.inl ⟨ents, hbe, hw⟩)
    · rename_i se start stop hw
      obtain ⟨loc, hloc, hfl⟩ := eachOk_error_mem h
      exact Or.inr (Or.inr ⟨ents, start, stop, hbe, hw, loc, hloc, hfl⟩)



theorem dedup_getD {orig : List String} {k : Nat} (hk : k < orig.length) :
    (dedup orig).getD k "" = dedupName orig k := by
  rw [dedup, List.getD_eq_getElem _ "" (by simpa using hk), List.getElem_map]
  congr 1
  exact List.getElem_range _ _

/-- C3 counterexample: an input name that collides with a generated key makes
the output keys non-unique. -/
theorem c3_dedup_counterexample :
    dedup ["walk", "walk", "walk 1"] = ["walk 1", "walk 2", "walk 1"] ∧
      ¬(dedup ["walk", "walk", "walk 1"]).Nodup := by
  constructor
  · decide
  · decide

/-- Storing a string of at most 35 characters into the U35 array keeps it
unchanged. -/
theorem truncU35_of_le {s : String} (h : s.length ≤ 35) : truncU35 s = s := by
  obtain ⟨l⟩ := s
  rw [String.length_mk] at h
  rw [truncU35]
  show String.mk (l.take 35) = String.mk l
  rw [List.take_of_length_le h]

/-- C3 (amended): names occurring once are unchanged; every occurrence of a
name occurring more than once gets a space and its 1-based occurrence number
appended, the result being stored back into the `dtype='U35'` array and hence
truncated to 35 characters (names whose suffixed form fits in 35 characters
get the full suffix; a duplicated 35-character name is left textually
unchanged); the `["walk","run","walk","walk"]` example produces the exact
keys `["walk 1","run","walk 2","walk 3"]`.  (The output keys need not be
pairwise unique: see the counterexample.) -/
theorem c3_dedup (orig : List String) (k : Nat) (hk : k < orig.length) :
    (dedup orig).length = orig.length ∧
      (countOcc orig (orig.getD k "") = 1 →
        (dedup orig).getD k "" = orig.getD k "") ∧
      (1 < countOcc orig (orig.getD k "") →
        (dedup orig).getD k "" = truncU35 (orig.getD k "" ++ " "
          ++ toString (1 + countOcc (orig.take k) (orig.getD k "")))) ∧
      (1 < countOcc orig (orig.getD k "") →
        (orig.getD k "" ++ " "
          ++ toString (1 + countOcc (orig.take k) (orig.getD k ""))).length ≤ 35 →
        (dedup orig).getD k "" = orig.getD k "" ++ " "
          ++ toString (1 + countOcc (orig.take k) (orig.getD k ""))) ∧
      dedup ["abcdefghijklmnopqrstuvwxyz123456789", "abcdefghijklmnopqrstuvwxyz123456789"]
        = ["abcdefghijklmnopqrstuvwxyz123456789", "abcdefghijklmnopqrstuvwxyz123456789"] ∧
      dedup ["walk", "run", "walk", "walk"] = ["walk 1", "run", "walk 2", "walk 3"] := by
  refine ⟨?_, ?_, ?_, ?_, ?_, ?_⟩
  · rw [dedup, List.length_map, List.length_range]
  · intro h1
    rw [dedup_getD hk, dedupName, if_neg (by omega)]
  · intro h1
    rw [dedup_getD hk, dedupName, if_pos h1]
  · intro h1 hlen
    rw [dedup_getD hk, dedupName, if_pos h1, truncU35_of_le hlen]
  · decide
  · decide

/-- C3 witness: the first duplicate "walk" becomes exactly "walk 1" (its
suffixed form fits in the 35-character width). -/
theorem c3_dedup_witness :
    (dedup ["walk", "run", "walk", "walk"]).getD 0 "" = "walk 1" := by
  have h := (c3_dedup ["walk", "run", "walk", "walk"] 0 (by decide)).2.2.2.1
    (by decide) (by decide)
  rw [h]
  rfl



/-! ## Lemmas on `nearestIdx`, `pySlice`, `segTable` -/

theorem mapAbs_getD (l : List ℚ) (x : ℚ) {j : Nat} (hj : j < l.length) :
    (l.map (fun u => |u - x|)).getD j 0 = |l.getD j 0 - x| := by
  rw [List.getD_eq_getElem _ 0 (by simpa using hj), List.getElem_map,
    List.getD_eq_getElem l 0 hj]

theorem col0_length (t : Table) : (col0 t).length = t.length := by
  rw [col0, List.length_map]

theorem col0_ne_nil {t : Table} (h : t ≠ []) : col0 t ≠ [] := by
  intro hc
  exact h (List.map_eq_nil_iff.mp hc)

theorem nearestDists_ne_nil {t : Table} (h : t ≠ []) (x : ℚ) :
    (col0 t).map (fun u => |u - x|) ≠ [] := by
  intro hc
  exact col0_ne_nil h (List.map_eq_nil_iff.mp hc)

theorem nearestIdx_lt {t : Table} (h : t ≠ []) (x : ℚ) : nearestIdx t x < t.length := by
  have hl := (listArgmin_spec (nearestDists_ne_nil h x)).1
  rw [List.length_map, col0_length] at hl
  exact hl

/-- The nearest index minimizes the timestamp distance. -/
theorem nearestIdx_minimizes {t : Table} (h : t ≠ []) (x : ℚ) {j : Nat}
    (hj : j < t.length) :
    |(col0 t).getD (nearestIdx t x) 0 - x| ≤ |(col0 t).getD j 0 - x| := by
  have hlt := nearestIdx_lt h x
  have hle := getD_listArgmin_le (nearestDists_ne_nil h x)
    (j := j) (by rw [List.length_map, col0_length]; exact hj)
  rw [nearestIdx] at hlt ⊢
  rw [mapAbs_getD _ x (by rw [col0_length]; exact hlt),
    mapAbs_getD _ x (by rw [col0_length]; exact hj)] at hle
  exact hle

/-- Rows before the nearest index are strictly farther (first-index tie-break). -/
theorem nearestIdx_first {t : Table} (h : t ≠ []) (x : ℚ) {j : Nat}
    (hj : j < nearestIdx t x) :
    |(col0 t).getD (nearestIdx t x) 0 - x| < |(col0 t).getD j 0 - x| := by
  have hlt := nearestIdx_lt h x
  have hstrict := getD_lt_of_lt_listArgmin (nearestDists_ne_nil h x) (j := j) hj
  rw [nearestIdx] at hlt ⊢
  rw [mapAbs_getD _ x (by rw [col0_length]; exact hlt),
    mapAbs_getD _ x (by rw [col0_length]; exact lt_trans hj hlt)] at hstrict
  exact hstrict

/-- For nonnegative bounds, a Python slice is plain drop-and-take. -/
theorem pySlice_nonneg {t : Table} {a b : ℤ} (ha : 0 ≤ a) (hb : 0 ≤ b) :
    pySlice t a b = (t.drop a.toNat).take (b.toNat - a.toNat) := by
  rw [pySlice, pySliceIdx, pySliceIdx, if_neg (not_lt.mpr ha), if_neg (not_lt.mpr hb)]
  rcases le_or_lt a.toNat t.length with hA | hA
  · rw [min_eq_left hA]
    rcases le_or_lt b.toNat t.length with hB | hB
    · rw [min_eq_left hB]
    · rw [min_eq_right (le_of_lt hB)]
      have hlen : (t.drop a.toNat).length = t.length - a.toNat := List.length_drop _ _
      rw [List.take_of_length_le (by omega), List.take_of_length_le (by omega)]
  · rw [min_eq_right (le_of_lt hA)]
    rw [List.drop_length, List.drop_eq_nil_of_le (le_of_lt hA)]
    simp

/-- With a wrapped (negative) start bound at or beyond the stop bound, a
Python slice is empty: the data is silently lost, not clamped. -/
theorem pySlice_neg_empty {t : Table} {a b : ℤ} (ha : a < 0) (hb : 0 ≤ b)
    (hwrap : b ≤ (t.length : ℤ) + a) : pySlice t a b = [] := by
  rw [pySlice, pySliceIdx, pySliceIdx, if_pos ha, if_neg (not_lt.mpr hb)]
  have hna : 0 ≤ (t.length : ℤ) + a := le_trans hb hwrap
  rw [max_eq_left hna]
  have hble : b.toNat ≤ ((t.length : ℤ) + a).toNat := by omega
  have hmin : min b.toNat t.length ≤ b.toNat := min_le_left _ _
  have hz : min b.toNat t.length - ((t.length : ℤ) + a).toNat = 0 := by omega
  rw [hz]
  exact List.take_zero _

/-- The `i`-th emitted pair of `segTable`. -/
theorem segTable_getElem? (t : Table) (startL stopL : List ℚ) (evs : List String)
    (pre : ℚ) {i : Nat} (hiS : i < startL.length) (hiT : i < stopL.length)
    (hiE : i < evs.length) :
    (segTable t startL stopL evs pre)[i]? = some (evs.getD i "",
      pySlice t ((nearestIdx t (startL.getD i 0) : ℤ) - padSamples t pre)
        (nearestIdx t (stopL.getD i 0) : ℤ)) := by
  rw [segTable, List.getElem?_map]
  have hz : ((startL.zip stopL).zip evs)[i]?
      = some ((startL.getD i 0, stopL.getD i 0), evs.getD i "") := by
    rw [List.getElem?_zip_eq_some]
    refine ⟨?_, ?_⟩
    · rw [List.getElem?_zip_eq_some]
      refine ⟨?_, ?_⟩
      · rw [List.getElem?_eq_getElem hiS, List.getD_eq_getElem startL 0 hiS]
      · rw [List.getElem?_eq_getElem hiT, List.getD_eq_getElem stopL 0 hiT]
    · rw [List.getElem?_eq_getElem hiE, List.getD_eq_getElem evs "" hiE]
  rw [hz]
  rfl



/-- C2: for a sensor table with ascending timestamps, annotation `i` is
emitted under its (de-duplicated) name with exactly the rows from
`start_index - pad_samples` (inclusive) to `stop_index` (exclusive), where
the start/stop indices minimize the absolute timestamp distance to the
annotation bounds (first index on ties) and
`pad_samples = round(pre_time / interval)` with `interval` the mean
consecutive timestamp difference divided by 1000 (converted to seconds, the
unit of `pre_time`). -/
theorem c2_segment_rows (t : Table) (startL stopL : List ℚ) (evs : List String)
    (pre : ℚ) (hne : t ≠ []) (h2 : 2 ≤ t.length) (hasc : ascBool (col0 t) = true)
    (i : Nat) (hiS : i < startL.length) (hiT : i < stopL.length) (hiE : i < evs.length)
    (hpad : 0 ≤ (nearestIdx t (startL.getD i 0) : ℤ) - padSamples t pre) :
    (segTable t startL stopL evs pre)[i]? = some (evs.getD i "",
        (t.drop ((nearestIdx t (startL.getD i 0) : ℤ) - padSamples t pre).toNat).take
          (nearestIdx t (stopL.getD i 0)
            - ((nearestIdx t (startL.getD i 0) : ℤ) - padSamples t pre).toNat)) ∧
      (∀ j, j < t.length →
        |(col0 t).getD (nearestIdx t (startL.getD i 0)) 0 - startL.getD i 0|
          ≤ |(col0 t).getD j 0 - startL.getD i 0|) ∧
      (∀ j, j < nearestIdx t (startL.getD i 0) →
        |(col0 t).getD (nearestIdx t (startL.getD i 0)) 0 - startL.getD i 0|
          < |(col0 t).getD j 0 - startL.getD i 0|) ∧
      (∀ j, j < t.length →
        |(col0 t).getD (nearestIdx t (stopL.getD i 0)) 0 - stopL.getD i 0|
          ≤ |(col0 t).getD j 0 - stopL.getD i 0|) ∧
      (∀ j, j < nearestIdx t (stopL.getD i 0) →
        |(col0 t).getD (nearestIdx t (stopL.getD i 0)) 0 - stopL.getD i 0|
          < |(col0 t).getD j 0 - stopL.getD i 0|) ∧
      padSamples t pre = pyRound (pre / (meanDiff (col0 t) / 1000)) := by
  refine ⟨?_, fun j hj => nearestIdx_minimizes hne _ hj,
    fun j hj => nearestIdx_first hne _ hj,
    fun j hj => nearestIdx_minimizes hne _ hj,
    fun j hj => nearestIdx_first hne _ hj, rfl⟩
  rw [segTable_getElem? t startL stopL evs pre hiS hiT hiE,
    pySlice_nonneg hpad (Int.ofNat_nonneg _)]
  have htn : ((nearestIdx t (stopL.getD i 0) : ℤ)).toNat = nearestIdx t (stopL.getD i 0) :=
    Int.toNat_ofNat _
  rw [htn]

/-- C2 witness: the spec's example - timestamps `[0,10,20,30,40,50]`,
`start = 21`, `stop = 39`, `pre_time = 0` - yields the rows with timestamps
20 and 30. -/
theorem c2_segment_rows_witness :
    (segTable [[0, 1], [10, 2], [20, 3], [30, 4], [40, 5], [50, 6]]
        [21] [39] ["walk"] 0)[0]? = some ("walk", [[20, 3], [30, 4]]) := by
  have h := (c2_segment_rows [[0, 1], [10, 2], [20, 3], [30, 4], [40, 5], [50, 6]]
    [21] [39] ["walk"] 0 (by decide) (by decide) (by with_unfolding_all decide)
    0 (by decide) (by decide) (by decide) (by with_unfolding_all decide)).1
  exact h.trans (by with_unfolding_all decide)

/-- C6 counterexample: table timestamps `[0,...,50]`, annotation
`start = 1, stop = 21`, `pre_time = 0.02 s` (2 pad samples): the padded start
index is `0 - 2 = -2`; the emitted segment is empty (Python slice `[-2:2]`),
not the clamped first two rows, and no warning exists. -/
theorem c6_counterexample :
    segTable [[0, 7], [10, 8], [20, 9], [30, 10], [40, 11], [50, 12]]
        [1] [21] ["ev"] (1 / 50) = [("ev", [])] ∧
      [("ev", ([] : Table))] ≠ [("ev", [[0, 7], [10, 8]])] := by
  constructor
  · with_unfolding_all decide
  · with_unfolding_all decide

/-- C6 (amended): when `start_index - pad_samples` is negative, no clamping
to row 0 happens and no warning is raised; Python slice semantics wrap the
start to `len + (start_index - pad_samples)`, so whenever that wrapped start
is at or beyond the stop index the emitted segment is empty. -/
theorem c6_negative_pad (t : Table) (startL stopL : List ℚ) (evs : List String)
    (pre : ℚ) (hne : t ≠ [])
    (i : Nat) (hiS : i < startL.length) (hiT : i < stopL.length) (hiE : i < evs.length)
    (hneg : (nearestIdx t (startL.getD i 0) : ℤ) - padSamples t pre < 0)
    (hwrap : (nearestIdx t (stopL.getD i 0) : ℤ)
      ≤ (t.length : ℤ) + ((nearestIdx t (startL.getD i 0) : ℤ) - padSamples t pre)) :
    (segTable t startL stopL evs pre)[i]? = some (evs.getD i "", ([] : Table)) := by
  rw [segTable_getElem? t startL stopL evs pre hiS hiT hiE,
    pySlice_neg_empty hneg (Int.ofNat_nonneg _) hwrap]

/-- C6 witness: the counterexample input satisfies the amended description. -/
theorem c6_negative_pad_witness :
    (segTable [[0, 7], [10, 8], [20, 9], [30, 10], [40, 11], [50, 12]]
        [1] [21] ["ev"] (1 / 50))[0]? = some ("ev", ([] : Table)) :=
  c6_negative_pad [[0, 7], [10, 8], [20, 9], [30, 10], [40, 11], [50, 12]]
    [1] [21] ["ev"] (1 / 50) (by decide) 0 (by decide) (by decide) (by decide)
    (by with_unfolding_all decide) (by with_unfolding_all decide)



/-! ## Claim C5: validation of `_segment_data` inputs -/

theorem seqOpt_none {l : List (Option ℚ)} (h : none ∈ l) : seqOpt l = none := by
  induction l with
  | nil => exact absurd h (List.not_mem_nil _)
  | cons a r ih =>
    rcases List.mem_cons.mp h with rfl | h'
    · rfl
    · cases a with
      | none => rfl
      | some q => rw [seqOpt, ih h']; rfl

theorem seqOpt_some {l : List (Option ℚ)} (h : ¬none ∈ l) : ∃ l', seqOpt l = some l' := by
  induction l with
  | nil => exact ⟨[], rfl⟩
  | cons a r ih =>
    obtain ⟨l', hl'⟩ := ih (fun hc => h (List.mem_cons_of_mem a hc))
    cases a with
    | none => exact absurd (List.mem_cons_self _ _) h
    | some q => exact ⟨q :: l', by rw [seqOpt, hl']; rfl⟩

theorem astype_error {a : NdArr (Option ℚ)} (h : none ∈ a.data) :
    astype a = .error .valueError := by
  rw [astype, seqOpt_none h]

theorem astype_ok {a : NdArr (Option ℚ)} (h : ¬none ∈ a.data) :
    ∃ l, astype a = .ok l := by
  obtain ⟨l, hl⟩ := seqOpt_some h
  exact ⟨l, by rw [astype, hl]⟩

theorem astype_error_eq {a : NdArr (Option ℚ)} {e : PyErr}
    (h : astype a = .error e) : e = .valueError := by
  rw [astype] at h
  cases hsq : seqOpt a.data with
  | none =>
    rw [hsq] at h
    have h2 : Except.error (α := List ℚ) PyErr.valueError
        = Except.error (α := List ℚ) e := h
    exact (Except.error.inj h2).symm
  | some l =>
    rw [hsq] at h
    exact absurd h (by simp)

/-- C5 counterexample: a non-coercible `start` value raises `ValueError`
(from `astype`), not the spec's `InputError`. -/
theorem c5_counterexample :
    segmentData [] ⟨[1], [none]⟩ ⟨[1], [some 1]⟩ ⟨[1], ["e"]⟩ 0
        = .error .valueError ∧
      Except.error (α := SegOut) PyErr.valueError
        ≠ Except.error (α := SegOut) PyErr.inputError := by
  constructor
  · with_unfolding_all decide
  · decide

/-- C5 (amended): `_segment_data` validates its inputs before reading any
sensor table - the result on a violating input is the same error for every
`data` argument, so no partial output is produced.  Structural violations
(non-1-D `start` or `stop`, unequal `start`/`stop` shapes, `events` shape
different from `start`) raise `InputError`; however `start`/`stop` values
that are not coercible to float raise `ValueError` from `astype` (which runs
first), not `InputError`.  In particular 3 starts, 3 stops and 2 events raise
`InputError`. -/
theorem c5_validation (dat : SubjData) (start stop : NdArr (Option ℚ))
    (events : NdArr String) (pre : ℚ) :
    ((none ∈ start.data ∨ none ∈ stop.data) →
      segmentData dat start stop events pre = .error .valueError) ∧
    (¬none ∈ start.data → ¬none ∈ stop.data →
      (start.shape.length ≠ 1 ∨ stop.shape.length ≠ 1 ∨ start.shape ≠ stop.shape ∨
        start.shape ≠ events.shape) →
      segmentData dat start stop events pre = .error .inputError) := by
  constructor
  · intro hcoer
    rcases hcoer with hs | ht
    · simp only [segmentData, astype_error hs]
    · cases hast : astype start with
      | error e =>
        have he := astype_error_eq hast
        subst he
        simp only [segmentData, hast]
      | ok startF =>
        simp only [segmentData, hast, astype_error ht]
  · intro hs ht hviol
    obtain ⟨startF, hsF⟩ := astype_ok hs
    obtain ⟨stopF, htF⟩ := astype_ok ht
    simp only [segmentData, hsF, htF]
    by_cases h1 : start.shape.length ≠ 1
    · rw [if_pos h1]
    · rw [if_neg h1]
      by_cases h2 : stop.shape.length ≠ 1
      · rw [if_pos h2]
      · rw [if_neg h2]
        by_cases h3 : start.shape ≠ stop.shape
        · rw [if_pos h3]
        · rw [if_neg h3]
          have h4 : start.shape ≠ events.shape := by
            rcases hviol with h | h | h | h
            · exact absurd h h1
            · exact absurd h h2
            · exact absurd h h3
            · exact h
          rw [if_pos h4]

/-- C5 witness: 3 start times, 3 stop times, 2 event names raise `InputError`
regardless of the sensor data. -/
theorem c5_validation_witness :
    segmentData [("loc", [("accel", [[0, 1]])])] ⟨[3], [some 1, some 2, some 3]⟩
        ⟨[3], [some 4, some 5, some 6]⟩ ⟨[2], ["a", "b"]⟩ 0 = .error .inputError :=
  (c5_validation [("loc", [("accel", [[0, 1]])])] ⟨[3], [some 1, some 2, some 3]⟩
    ⟨[3], [some 4, some 5, some 6]⟩ ⟨[2], ["a", "b"]⟩ 0).2
    (by decide) (by decide) (by decide)



/-! ## Claims C7 and C8: alignment failure modes -/

theorem eachOk_map_ok {α β : Type} {f : α → Except PyErr β} {g : α → β} :
    ∀ {l : List α}, (∀ a ∈ l, f a = .ok (g a)) → eachOk f l = .ok (l.map g) := by
  intro l
  induction l with
  | nil => intro _; rfl
  | cons a r ih =>
    intro h
    rw [eachOk, h a (List.mem_cons_self a r), ih (fun x hx => h x (List.mem_cons_of_mem a hx))]
    rfl

/-- C7 (amended): on a subject in which no location has an "accel" table,
`_align_timestamps` raises `ValueError` (from `max` of an empty sequence);
no dedicated `AlignmentError` class exists in the source. -/
theorem c7_no_accel (itp : List ℚ → List ℚ → ℚ → ℚ) (subj : SubjData)
    (h : ∀ p ∈ subj, List.lookup "accel" p.2 = none) :
    align itp subj = .error .valueError := by
  have hbe : beginsEnds subj = .ok (subj.map (fun p => (p.1, (0 : ℚ), (0 : ℚ)))) := by
    apply eachOk_map_ok
    intro p hp
    rw [tbtf, h p hp]
  have hincl : includedOf (subj.map (fun p => (p.1, (0 : ℚ), (0 : ℚ)))) = [] := by
    rw [includedOf, List.filter_eq_nil_iff]
    intro e he
    obtain ⟨p, _, rfl⟩ := List.mem_map.mp he
    simp
  rw [align]
  simp only [hbe, hincl, window_nil]

/-- C7 counterexample: a subject with only a gyro table fails with
`ValueError`, which is not an `AlignmentError`. -/
theorem c7_counterexample :
    align (fun _ _ _ => 0) [("wrist", [("gyro", [[0, 1], [8, 2], [16, 3], [24, 4]])])]
        = .error .valueError ∧ PyErr.valueError ≠ PyErr.alignmentError := by
  constructor
  · with_unfolding_all decide
  · decide

/-- C7 witness. -/
theorem c7_no_accel_witness :
    align (fun _ _ _ => 0) [("ankle", [("gyro", [[5, 1], [13, 2]])])]
      = .error .valueError :=
  c7_no_accel (fun _ _ _ => 0) [("ankle", [("gyro", [[5, 1], [13, 2]])])] (by decide)

/-- C8 (amended): if some kind at an included location has fewer than 4
samples (and at least one channel column), alignment fails with `ValueError`
(raised by `interp1d` for a cubic fit); no dedicated
`InsufficientDataError` class exists in the source. -/
theorem c8_short_kind (itp : List ℚ → List ℚ → ℚ → ℚ) (subj : SubjData)
    (hnd : (subj.map Prod.fst).Nodup)
    (hwf : ∀ p ∈ subj, WfKinds p.2)
    {loc : String} {kinds : KindMap} (hmem : (loc, kinds) ∈ subj)
    (hacc : hasAccelRef kinds = true)
    {k : String} {tk : Table} (hkt : (k, tk) ∈ kinds)
    (hlen : tk.length < 4) (hcols : 1 < (tk.headD []).length) :
    align itp subj = .error .valueError := by
  obtain ⟨ents, hbe⟩ := beginsEnds_ok_of_wf hwf
  have hf2 := beginsEnds_elim hbe
  have hkeys := included_keys hf2
  have hlocmem : loc ∈ (includedOf ents).map Prod.fst := by
    rw [hkeys]
    exact List.mem_map.mpr ⟨(loc, kinds), List.mem_filter.mpr ⟨hmem, hacc⟩, rfl⟩
  have hne : includedOf ents ≠ [] := by
    intro hc
    rw [hc] at hlocmem
    exact absurd hlocmem (by simp)
  obtain ⟨start, stop, hw⟩ := window_ok_of_ne_nil hne
  have hlook : List.lookup loc subj = some kinds := lookup_eq_of_mem_nodup hmem hnd
  have htkne : tk ≠ [] := (hwf (loc, kinds) hmem (k, tk) hkt).1
  obtain ⟨r0, cr, hr0⟩ : ∃ r0 cr, tk = r0 :: cr := by
    cases tk with
    | nil => exact absurd rfl htkne
    | cons r0 cr => exact ⟨r0, cr, rfl⟩
  have hshort : interpTable itp (locTime subj start stop loc) tk
      = .error .valueError := by
    apply @interpTable_short itp (locTime subj start stop loc) tk r0
    · rw [hr0, List.head?_cons]
    · rw [hr0] at hcols
      exact hcols
    · exact hlen
  cases hal : eachOk (alignLoc itp subj start stop) ((includedOf ents).map Prod.fst) with
  | ok out =>
    exfalso
    have hfa := eachOk_ok_forall2 hal
    obtain ⟨q, _, hq⟩ := forall2_mem_left hfa hlocmem
    obtain ⟨_, hforall⟩ := alignLoc_ok_elim hq
    rw [hlook] at hforall
    obtain ⟨kq, _, _, hit⟩ := forall2_mem_left hforall hkt
    rw [hshort] at hit
    exact absurd hit (by simp)
  | error e =>
    have he : e = .valueError := by
      obtain ⟨loc', hloc', hfl⟩ := eachOk_error_mem hal
      obtain ⟨p, hp, hitp⟩ := alignLoc_error_elim hfl
      obtain ⟨q, hqf, hq1⟩ := List.mem_map.mp (hkeys ▸ hloc')
      obtain ⟨hqsub, _⟩ := List.mem_filter.mp hqf
      have hlook' : List.lookup loc' subj = some q.2 := by
        rw [← hq1]
        exact lookup_eq_of_mem_nodup hqsub hnd
      rw [hlook'] at hp
      have hpne : p.2 ≠ [] := (hwf q hqsub p hp).1
      exact interpTable_error_elim hpne hitp
    subst he
    rw [align]
    simp only [hbe, hw, hal]

/-- C8 counterexample: a 3-sample accel table fails with `ValueError`, not an
`InsufficientDataError`. -/
theorem c8_counterexample :
    align (fun _ _ _ => 0) [("chest", [("accel", [[100, 1], [108, 2], [116, 3]])])]
        = .error .valueError ∧ PyErr.valueError ≠ PyErr.insufficientDataError := by
  constructor
  · with_unfolding_all decide
  · decide

/-- C8 witness. -/
theorem c8_short_kind_witness :
    align (fun _ _ _ => 0) [("thigh", [("accel", [[100, 1], [108, 2], [116, 3]])])]
      = .error .valueError :=
  @c8_short_kind (fun _ _ _ => 0) [("thigh", [("accel", [[100, 1], [108, 2], [116, 3]])])]
    (by decide)
    (by
      intro p hp q hq
      rw [List.mem_singleton] at hp
      subst hp
      rw [List.mem_singleton] at hq
      subst hq
      exact ⟨by decide, by decide⟩)
    "thigh" [("accel", [[100, 1], [108, 2], [116, 3]])] (by decide)
    (by with_unfolding_all decide)
    "accel" [[100, 1], [108, 2], [116, 3]] (by decide)
    (by decide) (by decide)



/-! ## Claims C9 and C10: alignment output structure -/

theorem forall2_mem_right {α β : Type} {R : α → β → Prop} :
    ∀ {l : List α} {l' : List β}, List.Forall₂ R l l' → ∀ {b}, b ∈ l' →
      ∃ a, a ∈ l ∧ R a b := by
  intro l l' h
  induction h with
  | nil => intro b hb; exact absurd hb (List.not_mem_nil b)
  | cons hR _ ih =>
    intro y hy
    rcases List.mem_cons.mp hy with rfl | hy'
    · exact ⟨_, List.mem_cons_self _ _, hR⟩
    · obtain ⟨a, ha, hRa⟩ := ih hy'
      exact ⟨a, List.mem_cons_of_mem _ ha, hRa⟩

theorem forall2_map_eq_map {α β γ : Type} {R : α → β → Prop} {f : α → γ} {g : β → γ}
    (hg : ∀ a b, R a b → g b = f a) :
    ∀ {l : List α} {l' : List β}, List.Forall₂ R l l' → l'.map g = l.map f := by
  intro l l' h
  induction h with
  | nil => rfl
  | cons hR _ ih =>
    rw [List.map_cons, List.map_cons, ih, hg _ _ hR]

theorem forall2_map_eq_left {α β : Type} {R : α → β → Prop} {g : β → α}
    (hg : ∀ a b, R a b → g b = a) {l : List α} {l' : List β}
    (h : List.Forall₂ R l l') : l'.map g = l := by
  have h2 := forall2_map_eq_map (f := id) (fun a b hr => hg a b hr) h
  rwa [List.map_id] at h2

theorem lookup_isSome_of_mem_keys {β : Type} {k : String} :
    ∀ {m : List (String × β)}, k ∈ m.map Prod.fst → ∃ v, List.lookup k m = some v := by
  intro m
  induction m with
  | nil => intro h; exact absurd h (by simp)
  | cons p r ih =>
    intro h
    by_cases hk : k = p.1
    · refine ⟨p.2, ?_⟩
      rw [List.lookup]
      have hek : (k == p.1) = true := by
        rw [hk]
        simp
      rw [hek]
    · rw [List.map_cons, List.mem_cons] at h
      rcases h with h | h
      · exact absurd h hk
      · obtain ⟨v, hv⟩ := ih h
        refine ⟨v, ?_⟩
        rw [List.lookup]
        have hek : (k == p.1) = false := by
          rw [beq_eq_false_iff_ne]
          exact hk
        rw [hek]
        exact hv

theorem mem_val_unique {β : Type} {k : String} {v1 v2 : β} {m : List (String × β)}
    (h1 : (k, v1) ∈ m) (h2 : (k, v2) ∈ m) (hnd : (m.map Prod.fst).Nodup) : v1 = v2 := by
  have e1 := lookup_eq_of_mem_nodup h1 hnd
  have e2 := lookup_eq_of_mem_nodup h2 hnd
  rw [e1] at e2
  exact Option.some.inj e2

theorem headD_eq_head?_getD' {α : Type} (l : List α) (d : α) :
    l.headD d = l.head?.getD d := by
  cases l <;> rfl

/-- When the accel lookup succeeds, the recorded `tb` is the head of the
head row. -/
theorem tbtf_ok_first {kinds : KindMap} {a : Table} {q : ℚ × ℚ}
    (hacc : List.lookup "accel" kinds = some a) (htb : tbtf kinds = .ok q) :
    q.1 = (a.headD []).headD 0 := by
  simp only [tbtf, hacc] at htb
  split at htb
  · rename_i r0 rl h1 h2
    split at htb
    · rename_i b f h3 h4
      have hq : (b, f) = q := Except.ok.inj htb
      rw [← hq]
      rw [headD_eq_head?_getD' a [], h1, Option.getD_some,
        headD_eq_head?_getD' r0 0, h3, Option.getD_some]
    · exact absurd htb (by simp)
  · exact absurd htb (by simp)

/-- C9 counterexample: a location ("wrist") whose accel table starts at
timestamp 0 is silently dropped from the aligned output even though it has an
accel table, so the output does not contain exactly the accel-bearing
locations. -/
theorem c9_counterexample :
    align (fun _ _ _ => 0)
        [("wrist", [("accel", [[0, 1], [8, 2], [16, 3], [24, 4]])]),
         ("ankle", [("accel", [[100, 1], [108, 2], [116, 3], [124, 4], [132, 5]])])]
      = .ok [("ankle", [("accel", [[100, 0], [108, 0], [116, 0], [124, 0]])])] ∧
    List.lookup "accel"
        ((List.lookup "wrist"
          [("wrist", [("accel", [[0, 1], [8, 2], [16, 3], [24, 4]])]),
           ("ankle", [("accel", [[100, 1], [108, 2], [116, 3], [124, 4], [132, 5]])])]).getD [])
      = some [[0, 1], [8, 2], [16, 3], [24, 4]] ∧
    List.lookup "wrist"
        [("ankle", [("accel", [[100, 0], [108, 0], [116, 0], [124, 0]])])] = none := by
  refine ⟨?_, ?_, ?_⟩
  · with_unfolding_all decide
  · with_unfolding_all decide
  · decide

/-- C9 (amended): a successful `_align_timestamps` returns a new mapping
whose locations are exactly those whose accel reference is detected (an
accel table with nonzero first timestamp - locations without one, or with a
first timestamp of exactly 0, are excluded); each included location keeps
the same kind names in order; and within one location every kind's table has
column 0 equal to the location's common time vector. -/
theorem c9_align_structure (itp : List ℚ → List ℚ → ℚ → ℚ) (subj out : SubjData)
    (h : align itp subj = .ok out) :
    out.map Prod.fst = (subj.filter (fun p => hasAccelRef p.2)).map Prod.fst ∧
      (∀ q ∈ out, ∃ kinds, List.lookup q.1 subj = some kinds ∧
        q.2.map Prod.fst = kinds.map Prod.fst) ∧
      ∃ start stop, windowOf subj = .ok (start, stop) ∧
        ∀ q ∈ out, ∀ kt ∈ q.2, col0 kt.2 = locTime subj start stop q.1 := by
  obtain ⟨ents, start, stop, hbe, hw, hfa⟩ := align_ok_elim h
  have hkeys0 : out.map Prod.fst = (includedOf ents).map Prod.fst :=
    forall2_map_eq_left (g := Prod.fst) (fun loc q hq => (alignLoc_ok_elim hq).1) hfa
  have hkeys := included_keys (beginsEnds_elim hbe)
  refine ⟨by rw [hkeys0, hkeys], ?_, ?_⟩
  · intro q hq
    obtain ⟨loc, hloc, hR⟩ := forall2_mem_right hfa hq
    obtain ⟨hq1, hforall⟩ := alignLoc_ok_elim hR
    have hlocsub : loc ∈ subj.map Prod.fst := by
      rw [hkeys] at hloc
      obtain ⟨p, hp, hp1⟩ := List.mem_map.mp hloc
      exact List.mem_map.mpr ⟨p, (List.mem_filter.mp hp).1, hp1⟩
    obtain ⟨kinds, hlook⟩ := lookup_isSome_of_mem_keys hlocsub
    refine ⟨kinds, by rw [hq1, hlook], ?_⟩
    rw [hlook] at hforall
    exact forall2_map_eq_map (fun p kq hr => hr.1) hforall
  · refine ⟨start, stop, ?_, ?_⟩
    · rw [windowOf]
      simp only [hbe]
      exact hw
    · intro q hq kt hkt
      obtain ⟨loc, hloc, hR⟩ := forall2_mem_right hfa hq
      obtain ⟨hq1, hforall⟩ := alignLoc_ok_elim hR
      obtain ⟨p, hp, hp1, hit⟩ := forall2_mem_right hforall hkt
      rw [hq1]
      exact interpTable_ok_elim hit

/-- C9 witness: on a two-location subject the aligned output keys match the
detected accel-bearing locations. -/
theorem c9_align_structure_witness :
    ([("ankle", [("accel", [[100, 0], [108, 0], [116, 0], [124, 0]])])] : SubjData).map
        Prod.fst
      = (([("wrist", [("accel", [[0, 1], [8, 2], [16, 3], [24, 4]])]),
          ("ankle", [("accel", [[100, 1], [108, 2], [116, 3], [124, 4], [132, 5]])])] :
            SubjData).filter (fun p => hasAccelRef p.2)).map Prod.fst :=
  (c9_align_structure (fun _ _ _ => 0)
    [("wrist", [("accel", [[0, 1], [8, 2], [16, 3], [24, 4]])]),
     ("ankle", [("accel", [[100, 1], [108, 2], [116, 3], [124, 4], [132, 5]])])]
    [("ankle", [("accel", [[100, 0], [108, 0], [116, 0], [124, 0]])])]
    (by with_unfolding_all decide)).1

/-- C10: a location whose accel table has first timestamp exactly 0 is not
detected as accel-bearing (`argwhere(tb)` misses it), is excluded from the
window computation, and is omitted from the aligned output. -/
theorem c10_zero_first_ts (subj : SubjData) (hnd : (subj.map Prod.fst).Nodup)
    (loc : String) (kinds : KindMap) (a : Table) (hmem : (loc, kinds) ∈ subj)
    (hacc : List.lookup "accel" kinds = some a)
    (h0 : (a.headD []).headD 0 = 0) :
    hasAccelRef kinds = false ∧
      (∀ ents, beginsEnds subj = .ok ents → loc ∉ (includedOf ents).map Prod.fst) ∧
      (∀ itp out, align itp subj = .ok out → loc ∉ out.map Prod.fst) := by
  have hfalse : hasAccelRef kinds = false := by
    rw [hasAccelRef]
    cases htb : tbtf kinds with
    | error e => rfl
    | ok q =>
      have hq1 := tbtf_ok_first hacc htb
      rw [h0] at hq1
      show (q.1 != 0) = false
      rw [hq1]
      simp
  have hnotin : ∀ ents, beginsEnds subj = .ok ents →
      loc ∉ (includedOf ents).map Prod.fst := by
    intro ents hbe hmem2
    rw [included_keys (beginsEnds_elim hbe)] at hmem2
    obtain ⟨p, hpf, hp1⟩ := List.mem_map.mp hmem2
    obtain ⟨hpsub, hptrue⟩ := List.mem_filter.mp hpf
    have hpeq : p.2 = kinds := by
      have hp : (loc, p.2) ∈ subj := by
        rw [← hp1]
        exact hpsub
      exact mem_val_unique hp hmem hnd
    rw [hpeq, hfalse] at hptrue
    exact Bool.false_ne_true hptrue
  refine ⟨hfalse, hnotin, ?_⟩
  intro itp out hal hmem2
  obtain ⟨ents, start, stop, hbe, hw, hfa⟩ := align_ok_elim hal
  have hkeys0 : out.map Prod.fst = (includedOf ents).map Prod.fst :=
    forall2_map_eq_left (g := Prod.fst) (fun loc q hq => (alignLoc_ok_elim hq).1) hfa
  rw [hkeys0] at hmem2
  exact hnotin ents hbe hmem2

/-- C10 witness. -/
theorem c10_zero_first_ts_witness :
    hasAccelRef [("accel", [[0, 1], [8, 2], [16, 3], [24, 4]])] = false :=
  (c10_zero_first_ts
    [("wrist", [("accel", [[0, 1], [8, 2], [16, 3], [24, 4]])]),
     ("ankle", [("accel", [[100, 1], [108, 2], [116, 3], [124, 4], [132, 5]])])]
    (by decide) "wrist" [("accel", [[0, 1], [8, 2], [16, 3], [24, 4]])]
    [[0, 1], [8, 2], [16, 3], [24, 4]] (by decide) (by decide)
    (by with_unfolding_all decide)).1



/-- C4: the sampling interval used to build a location's time vector is the
catalog entry (`[32, 16, 8, 4]` ms, i.e. `1000/{31.25, 62.5, 125, 250}`) with
minimum absolute difference from the mean consecutive timestamp difference of
the accel table, earlier catalog entries winning ties; in particular accel
data sampled at a nominal 8 ms interval with per-sample jitter at most
0.5 ms snaps to the 8 ms entry. -/
theorem c4_rate_snap :
    (∀ ts : List ℚ, locDt ts ∈ samplingRates) ∧
      samplingRates = [32, 16, 8, 4] ∧
      (∀ ts : List ℚ, 2 ≤ ts.length →
        locDt ts = snapDt (meanDiff ts) ∧
          (∀ c ∈ samplingRates,
            |meanDiff ts - snapDt (meanDiff ts)| ≤ |meanDiff ts - c|) ∧
          (∀ j < snapIdx (meanDiff ts),
            |meanDiff ts - snapDt (meanDiff ts)|
              < |meanDiff ts - samplingRates.getD j 0|)) ∧
      (∀ (t : List ℚ) (b : ℚ), 2 ≤ t.length →
        (∀ k, k < t.length → |t.getD k 0 - (b + 8 * (k : ℚ))| ≤ 1 / 2) →
        locDt t = 8) := by
  refine ⟨locDt_mem, samplingRates_eq, ?_, ?_⟩
  · intro ts hlen
    refine ⟨by rw [locDt, if_neg (by omega)], snapDt_minimizes _, snapDt_first _⟩
  · intro t b hlen hj
    exact locDt_eight hlen hj

/-- C4 witness: timestamps `[100, 108, 116]` (8 ms nominal, zero jitter)
snap to the 8 ms catalog entry. -/
theorem c4_rate_snap_witness : locDt [100, 108, 116] = 8 :=
  c4_rate_snap.2.2.2 [100, 108, 116] 100 (by decide) (by with_unfolding_all decide)

/-- C1 counterexample: two included accel-bearing locations with ascending
timestamps but disjoint recording windows (`max(firsts) = 100 > 22 =
min(lasts)`) produce an EMPTY common time vector - there is no first element
equal to `max(firsts)`, and alignment succeeds returning empty tables. -/
theorem c1_counterexample :
    align (fun _ _ _ => 0)
        [("a", [("accel", [[10, 1], [14, 2], [18, 3], [22, 4]])]),
         ("b", [("accel", [[100, 1], [104, 2], [108, 3], [112, 4]])])]
      = .ok [("a", [("accel", [])]), ("b", [("accel", [])])] ∧
    windowOf [("a", [("accel", [[10, 1], [14, 2], [18, 3], [22, 4]])]),
        ("b", [("accel", [[100, 1], [104, 2], [108, 3], [112, 4]])])] = .ok (100, 22) ∧
    locTime [("a", [("accel", [[10, 1], [14, 2], [18, 3], [22, 4]])]),
        ("b", [("accel", [[100, 1], [104, 2], [108, 3], [112, 4]])])] 100 22 "a" = [] ∧
    ascBool (col0 (locAccel [("a", [("accel", [[10, 1], [14, 2], [18, 3], [22, 4]])]),
        ("b", [("accel", [[100, 1], [104, 2], [108, 3], [112, 4]])])] "a")) = true ∧
    ascBool (col0 (locAccel [("a", [("accel", [[10, 1], [14, 2], [18, 3], [22, 4]])]),
        ("b", [("accel", [[100, 1], [104, 2], [108, 3], [112, 4]])])] "b")) = true := by
  refine ⟨?_, ?_, ?_, ?_, ?_⟩
  · with_unfolding_all decide
  · with_unfolding_all decide
  · with_unfolding_all decide
  · with_unfolding_all decide
  · with_unfolding_all decide

/-- C1 (amended): provided the included accel recording windows overlap
(`max(firsts) < min(lasts)`), the window start is exactly the max of the
included first timestamps, the window stop the min of the included last
timestamps, and each included location's common time vector starts exactly at
the window start, ends strictly before the window stop, and ends no more than
that location's snapped sampling interval before the window stop.  (When the
windows do not overlap the time vector is empty - see the counterexample.) -/
theorem c1_alignment_window (subj : SubjData) (ents : List (String × ℚ × ℚ))
    (start stop : ℚ)
    (hasc : ∀ p ∈ subj, ascBool (col0 ((List.lookup "accel" p.2).getD [])) = true)
    (hbe : beginsEnds subj = .ok ents)
    (hw : window (includedOf ents) = .ok (start, stop))
    (hlt : start < stop)
    (loc : String) (hloc : loc ∈ (includedOf ents).map Prod.fst) :
    ((∃ p ∈ includedOf ents, p.2.1 = start) ∧
        (∀ p ∈ includedOf ents, p.2.1 ≤ start) ∧
        (∃ p ∈ includedOf ents, p.2.2 = stop) ∧
        (∀ p ∈ includedOf ents, stop ≤ p.2.2)) ∧
      (locTime subj start stop loc).head? = some start ∧
      ∃ last, (locTime subj start stop loc).getLast? = some last ∧
        last < stop ∧ stop - locDt (col0 (locAccel subj loc)) ≤ last := by
  have hdt : 0 < locDt (col0 (locAccel subj loc)) := locDt_pos _
  obtain ⟨hhead, hlast⟩ := arange_spec hdt hlt
  exact ⟨window_spec hw, hhead, hlast⟩

/-- C1 witness: two overlapping locations; the "a" time vector is
`[12, 16, 20]` - it starts at `max(firsts) = 12` and ends at 20, within one
4 ms interval of `min(lasts) = 22`. -/
theorem c1_alignment_window_witness :
    (locTime [("a", [("accel", [[10, 1], [14, 2], [18, 3], [22, 4]])]),
        ("b", [("accel", [[12, 1], [16, 2], [20, 3], [24, 4]])])] 12 22 "a").head?
      = some 12 :=
  (c1_alignment_window
    [("a", [("accel", [[10, 1], [14, 2], [18, 3], [22, 4]])]),
     ("b", [("accel", [[12, 1], [16, 2], [20, 3], [24, 4]])])]
    [("a", 10, 22), ("b", 12, 24)] 12 22
    (by with_unfolding_all decide)
    (by with_unfolding_all decide)
    (by with_unfolding_all decide)
    (by with_unfolding_all decide)
    "a" (by decide)).2.1


end MC10
